import Mathlib

/-!
Shallow embedding of the shopware-lsp indexing/dispatch core
(`internal/lsp/document.go`, `internal/lsp/server.go`) together with
proofs about the document manager, the version gate, the indexing
lifecycle and the JSON-RPC dispatcher.

Conventions:
* Go byte strings are modelled as Lean `String` (byte payloads are
  carried verbatim, so `[]byte(text)` round-trips to the same string).
* Go maps used by the document manager are modelled as association
  lists with at-most-one-entry-per-key update semantics.
* tree-sitter trees owned by the document manager are modelled by an
  allocation id (`Nat`); every call to `parser.Parse` allocates a fresh
  id, and `Tree.Close()` records the id in a `released` list, which
  makes leak statements expressible.
-/

namespace ShopwareLsp

/-- Go `filepath.Ext`, scanning bytes from the end of the path: return the
suffix starting at the last `'.'` that occurs after the last path
separator, and `""` when a separator (or the front of the string) is hit
first.  Scanning characters is equivalent to scanning bytes because `.`
and `/` are ASCII. -/
def filepathExtGo : List Char → List Char → String
  | [], _ => ""
  | c :: rest, acc =>
    if c = '/' then ""
    else if c = '.' then String.mk ('.' :: acc)
    else filepathExtGo rest (c :: acc)

/-- `filepath.Ext` on a path given as a string. -/
def filepathExt (path : String) : String :=
  filepathExtGo path.data.reverse []

/-- Go `strings.ToLower`, character-wise (the extensions compared against
are ASCII, where Go and Lean lowercasing agree). -/
def toLowerGo (s : String) : String :=
  String.mk (s.data.map Char.toLower)

/-- Go `strings.TrimSpace`: drop leading and trailing whitespace. -/
def trimGo (s : String) : String :=
  String.mk (((s.data.dropWhile Char.isWhitespace).reverse.dropWhile Char.isWhitespace).reverse)

/-- The key set of `indexer.CreateTreesitterParsers` (internal/indexer/treesitter.go):
the file extensions for which the document manager owns a parser. -/
def hasParser (fileType : String) : Bool :=
  fileType ∈ [".php", ".xml", ".twig", ".yaml", ".yml", ".scss", ".json"]

/-- `lsp.TextDocument` (document.go): an open editor document. -/
structure TextDocument where
  uri : String
  text : String
  version : Int
  tree : Option Nat
deriving DecidableEq, Repr

/-- `lsp.DocumentManager` (document.go).  `documents` is the Go map
`map[string]*TextDocument`; `nextTree` is the next fresh tree id handed
out by `parser.Parse`; `released` records every tree id on which
`Tree.Close()` was called. -/
structure DocumentManager where
  documents : List (String × TextDocument)
  nextTree : Nat
  released : List Nat
deriving DecidableEq, Repr

/-- Lookup in the `documents` map. -/
def lookupDoc : List (String × TextDocument) → String → Option TextDocument
  | [], _ => none
  | (k, v) :: rest, uri => if k = uri then some v else lookupDoc rest uri

/-- Go map assignment `m.documents[uri] = doc`. -/
def insertDoc : List (String × TextDocument) → String → TextDocument → List (String × TextDocument)
  | [], uri, d => [(uri, d)]
  | (k, v) :: rest, uri, d =>
    if k = uri then (uri, d) :: rest else (k, v) :: insertDoc rest uri d

/-- Go map deletion `delete(m.documents, uri)` (maps hold at most one
entry per key). -/
def removeDoc : List (String × TextDocument) → String → List (String × TextDocument)
  | [], _ => []
  | (k, v) :: rest, uri => if k = uri then rest else (k, v) :: removeDoc rest uri

/-- `NewDocumentManager()`: empty map, no trees allocated or released. -/
def dmInit : DocumentManager := ⟨[], 0, []⟩

/-- `DocumentManager.OpenDocument` (document.go lines 35-53): build a new
document, parse it when the lowercased extension has a parser, and store
it under `uri`.  An entry previously stored under `uri` is overwritten
and its tree is not closed. -/
def openDocument (m : DocumentManager) (uri text : String) (version : Int) : DocumentManager :=
  let fileType := toLowerGo (filepathExt uri)
  if hasParser fileType then
    { documents := insertDoc m.documents uri ⟨uri, text, version, some m.nextTree⟩,
      nextTree := m.nextTree + 1,
      released := m.released }
  else
    { documents := insertDoc m.documents uri ⟨uri, text, version, none⟩,
      nextTree := m.nextTree,
      released := m.released }

/-- `DocumentManager.UpdateDocument` (document.go lines 55-85): mutate the
existing entry (re-parsing replaces `doc.Tree` without closing the old
tree), or create the document exactly as `OpenDocument` does when the
uri is unknown. -/
def updateDocument (m : DocumentManager) (uri text : String) (version : Int) : DocumentManager :=
  match lookupDoc m.documents uri with
  | some doc =>
    let fileType := toLowerGo (filepathExt uri)
    if hasParser fileType then
      { documents := insertDoc m.documents uri { doc with text := text, version := version, tree := some m.nextTree },
        nextTree := m.nextTree + 1,
        released := m.released }
    else
      { documents := insertDoc m.documents uri { doc with text := text, version := version },
        nextTree := m.nextTree,
        released := m.released }
  | none =>
    let fileType := toLowerGo (filepathExt uri)
    if hasParser fileType then
      { documents := insertDoc m.documents uri ⟨uri, text, version, some m.nextTree⟩,
        nextTree := m.nextTree + 1,
        released := m.released }
    else
      { documents := insertDoc m.documents uri ⟨uri, text, version, none⟩,
        nextTree := m.nextTree,
        released := m.released }

/-- `DocumentManager.CloseDocument` (document.go lines 87-98): close the
document's tree if it has one, then delete the entry. -/
def closeDocument (m : DocumentManager) (uri : String) : DocumentManager :=
  let released' :=
    match lookupDoc m.documents uri with
    | some doc =>
      match doc.tree with
      | some t => t :: m.released
      | none => m.released
    | none => m.released
  { documents := removeDoc m.documents uri,
    nextTree := m.nextTree,
    released := released' }

/-- `DocumentManager.GetDocumentText` (document.go lines 109-118). -/
def getDocumentText (m : DocumentManager) (uri : String) : Option String :=
  (lookupDoc m.documents uri).map (fun d => d.text)

/-- One `textDocument/didOpen` or `textDocument/didChange` payload, as
forwarded by the dispatcher to the document manager. -/
inductive EditEvent where
  | openDoc (uri text : String) (version : Int)
  | updateDoc (uri text : String) (version : Int)
deriving DecidableEq, Repr

/-- The uri an edit event addresses. -/
def EditEvent.euri : EditEvent → String
  | .openDoc u _ _ => u
  | .updateDoc u _ _ => u

/-- The text payload of an edit event. -/
def EditEvent.etext : EditEvent → String
  | .openDoc _ t _ => t
  | .updateDoc _ t _ => t

/-- Apply one edit event to the document manager. -/
def applyEdit (m : DocumentManager) : EditEvent → DocumentManager
  | .openDoc uri text version => openDocument m uri text version
  | .updateDoc uri text version => updateDocument m uri text version

/-- Apply a sequence of edit events in order. -/
def applyEdits (m : DocumentManager) : List EditEvent → DocumentManager
  | [] => m
  | e :: es => applyEdits (applyEdit m e) es

/-- The text payload of the last event addressing `uri` in the sequence
(later events win). -/
def lastPayload : List EditEvent → String → Option String
  | [], _ => none
  | e :: es, uri =>
    match lastPayload es uri with
    | some t => some t
    | none => if e.euri = uri then some e.etext else none

theorem lookupDoc_insertDoc (l : List (String × TextDocument)) (uri : String)
    (d : TextDocument) (uri' : String) :
    lookupDoc (insertDoc l uri d) uri' = if uri = uri' then some d else lookupDoc l uri' := by
  induction l with
  | nil => simp [insertDoc, lookupDoc]
  | cons kv rest ih =>
    obtain ⟨k, v⟩ := kv
    by_cases hk : k = uri
    · subst hk
      by_cases h' : k = uri'
      · subst h'
        simp [insertDoc, lookupDoc]
      · simp [insertDoc, lookupDoc, h']
    · by_cases h' : k = uri'
      · subst h'
        have : ¬ uri = k := fun h => hk h.symm
        simp [insertDoc, lookupDoc, hk, this]
      · simp [insertDoc, lookupDoc, hk, h', ih]

theorem getDocumentText_openDocument (m : DocumentManager) (uri text : String)
    (version : Int) (uri' : String) :
    getDocumentText (openDocument m uri text version) uri'
      = if uri = uri' then some text else getDocumentText m uri' := by
  unfold openDocument getDocumentText
  by_cases hp : hasParser (toLowerGo (filepathExt uri)) = true
  · simp [hp, lookupDoc_insertDoc]
    by_cases h : uri = uri' <;> simp [h]
  · simp [hp, lookupDoc_insertDoc]
    by_cases h : uri = uri' <;> simp [h]

theorem getDocumentText_updateDocument (m : DocumentManager) (uri text : String)
    (version : Int) (uri' : String) :
    getDocumentText (updateDocument m uri text version) uri'
      = if uri = uri' then some text else getDocumentText m uri' := by
  unfold updateDocument getDocumentText
  cases hl : lookupDoc m.documents uri with
  | some doc =>
    by_cases hp : hasParser (toLowerGo (filepathExt uri)) = true
    · simp [hp, lookupDoc_insertDoc]
      by_cases h : uri = uri' <;> simp [h]
    · simp [hp, lookupDoc_insertDoc]
      by_cases h : uri = uri' <;> simp [h]
  | none =>
    by_cases hp : hasParser (toLowerGo (filepathExt uri)) = true
    · simp [hp, lookupDoc_insertDoc]
      by_cases h : uri = uri' <;> simp [h]
    · simp [hp, lookupDoc_insertDoc]
      by_cases h : uri = uri' <;> simp [h]

theorem getDocumentText_applyEdit (m : DocumentManager) (e : EditEvent) (uri' : String) :
    getDocumentText (applyEdit m e) uri'
      = if e.euri = uri' then some e.etext else getDocumentText m uri' := by
  cases e with
  | openDoc u t v =>
    simpa [applyEdit, EditEvent.euri, EditEvent.etext] using
      getDocumentText_openDocument m u t v uri'
  | updateDoc u t v =>
    simpa [applyEdit, EditEvent.euri, EditEvent.etext] using
      getDocumentText_updateDocument m u t v uri'

theorem getDocumentText_applyEdits (es : List EditEvent) (m : DocumentManager) (uri : String) :
    getDocumentText (applyEdits m es) uri
      = match lastPayload es uri with
        | some t => some t
        | none => getDocumentText m uri := by
  induction es generalizing m with
  | nil => simp [applyEdits, lastPayload]
  | cons e es ih =>
    show getDocumentText (applyEdits (applyEdit m e) es) uri = _
    rw [ih]
    cases hl : lastPayload es uri with
    | some t => simp [lastPayload, hl]
    | none =>
      rw [getDocumentText_applyEdit]
      by_cases h : e.euri = uri <;> simp [lastPayload, hl, h]

/-- C2: round-trip of document text.  Starting from a fresh document
manager, after any sequence of `OpenDocument`/`UpdateDocument` calls,
`GetDocumentText uri` is exactly the text payload of the last open or
update event addressing `uri` (and `none` when there was none, i.e. the
uri is not open). -/
theorem documentText_roundTrip (es : List EditEvent) (uri : String) :
    getDocumentText (applyEdits dmInit es) uri = lastPayload es uri := by
  rw [getDocumentText_applyEdits]
  cases hl : lastPayload es uri with
  | some t => rfl
  | none => simp [dmInit, getDocumentText, lookupDoc]

/-- C4: on a uri that is not present in the manager, `UpdateDocument`
produces exactly the state `OpenDocument` would produce. -/
theorem updateDocument_absent_eq_openDocument (m : DocumentManager) (uri text : String)
    (version : Int) (h : lookupDoc m.documents uri = none) :
    updateDocument m uri text version = openDocument m uri text version := by
  unfold updateDocument openDocument
  rw [h]

/-- Witness for C4 at a concrete input: the fresh manager has no entry
for `"file:///a/b.php"`, and update equals open there. -/
theorem updateDocument_absent_eq_openDocument_witness :
    lookupDoc dmInit.documents "file:///a/b.php" = none ∧
      updateDocument dmInit "file:///a/b.php" "<?php" 1
        = openDocument dmInit "file:///a/b.php" "<?php" 1 :=
  ⟨rfl, updateDocument_absent_eq_openDocument dmInit "file:///a/b.php" "<?php" 1 rfl⟩

/-- The tree ids currently referenced by open documents. -/
def currentTreeIds (m : DocumentManager) : List Nat :=
  m.documents.filterMap (fun p => p.2.tree)

/-- A tree id that was allocated by a parse, was never passed to
`Tree.Close()`, and is no longer referenced by any open document: a
leaked tree. -/
def treeLeaked (m : DocumentManager) (t : Nat) : Prop :=
  t < m.nextTree ∧ t ∉ m.released ∧ t ∉ currentTreeIds m

instance (m : DocumentManager) (t : Nat) : Decidable (treeLeaked m t) := by
  unfold treeLeaked
  infer_instance

/-- C5 (code bug exhibit): opening `file:///a.xml` parses tree 0; the
subsequent `UpdateDocument` on the same uri re-parses (tree 1) and
overwrites `doc.Tree` without ever calling `Tree.Close()` on tree 0, so
the replaced tree is leaked: it is allocated, unreleased, and no longer
referenced.  `CloseDocument` and `Close` are the only places in
document.go that close a tree. -/
theorem updateDocument_leaks_replaced_tree :
    treeLeaked (updateDocument (openDocument dmInit "file:///a.xml" "<a/>" 1)
      "file:///a.xml" "<b/>" 2) 0 := by
  decide

/-- `Server.shouldForceReindex` (server.go lines 635-665) as a pure
function of the server's cache directory, its version string, and the
current content of `version.txt` (`none` when the file does not exist).
Returns the `forceReindex` flag and the content of `version.txt` after
the call.  When the guard `cacheDir == "" || version == "" || version
== "dev"` fires the function returns immediately: no force and no
write. -/
def shouldForceReindex (cacheDir version : String) (versionFile : Option String) :
    Bool × Option String :=
  if cacheDir = "" ∨ version = "" ∨ version = "dev" then
    (false, versionFile)
  else
    match versionFile with
    | none => (true, some version)
    | some data => (trimGo data ≠ version, some version)

/-- C1 counterexample: with a cache directory present, an empty server
version string and no `version.txt`, the claim predicts a forced
rebuild (`empty = first run = force`) and a write-back of the version;
the code instead takes the early-return guard: no force, no write. -/
theorem shouldForceReindex_emptyVersion_counterexample :
    shouldForceReindex "/cache" "" none = (false, none) ∧
      ¬ ((shouldForceReindex "/cache" "" none).1 = true ∧
          (shouldForceReindex "/cache" "" none).2 = some "") := by
  constructor
  · rfl
  · intro h
    exact absurd h.1 (by decide)

/-- C1 (amended): when the cache directory is unset or the version
string is empty or literally `dev`, the gate neither forces nor writes;
otherwise it forces exactly when `version.txt` is absent or its
whitespace-trimmed content differs from the version string, and in
exactly those non-guarded cases the current version string is written
back to `version.txt`. -/
theorem shouldForceReindex_spec (cacheDir version : String) (versionFile : Option String) :
    if cacheDir = "" ∨ version = "" ∨ version = "dev" then
      shouldForceReindex cacheDir version versionFile = (false, versionFile)
    else
      ((shouldForceReindex cacheDir version versionFile).1 = true ↔
          (versionFile = none ∨ ∃ c, versionFile = some c ∧ trimGo c ≠ version)) ∧
        (shouldForceReindex cacheDir version versionFile).2 = some version := by
  by_cases hg : cacheDir = "" ∨ version = "" ∨ version = "dev"
  · simp only [hg, if_true]
    simp [shouldForceReindex, hg]
  · simp only [hg, if_false]
    cases versionFile with
    | none => simp [shouldForceReindex, hg]
    | some data =>
      constructor
      · simp only [shouldForceReindex, hg, if_false]
        by_cases ht : trimGo data = version <;> simp [ht]
      · simp [shouldForceReindex, hg]

/-- A tree-sitter syntax node: byte span, named flag, ordered children
(the external tree shape consumed by `findNodeAtPosition`). -/
inductive TSNode where
  | node (startByte endByte : Nat) (isNamed : Bool) (children : List TSNode)

/-- `Node.StartByte()`. -/
def TSNode.startByte : TSNode → Nat
  | .node s _ _ _ => s

/-- `Node.EndByte()`. -/
def TSNode.endByte : TSNode → Nat
  | .node _ e _ _ => e

/-- The ordered child list (`Node.Child(i)` for `i < Node.ChildCount()`,
named and unnamed children alike). -/
def TSNode.children : TSNode → List TSNode
  | .node _ _ _ cs => cs

/-- The containment test of document.go line 166:
`node.StartByte() <= targetOffset && targetOffset <= node.EndByte()`. -/
def containsOffset (n : TSNode) (off : Nat) : Bool :=
  decide (n.startByte ≤ off) && decide (off ≤ n.endByte)

/-- The position→byte-offset conversion inside `findNodeAtPosition`
(document.go lines 152-163): split the text on `'\n'`, add byte length
plus one for every line before the row, then add the column if the row
exists; a row past the end contributes no column. -/
def posToOffset (text : String) (row col : Nat) : Nat :=
  (((text.splitOn "\n").take row).foldl (fun acc l => acc + l.utf8ByteSize + 1) 0)
    + (if row < (text.splitOn "\n").length then col else 0)

mutual

/-- The recursion of `DocumentManager.findNodeAtPosition` (document.go
lines 147-182), with the byte offset precomputed: the Go code recomputes
the same `targetOffset` from `(pos, text)` in every recursive call.
Returns `some` of the most specific node whose span contains the offset,
or `none` when this node's span does not contain it. -/
def findNodeAtOffset : TSNode → Nat → Option TSNode
  | TSNode.node s e nm cs, off =>
    if s ≤ off ∧ off ≤ e then
      match findFirstChildAtOffset cs off with
      | some r => some r
      | none => some (TSNode.node s e nm cs)
    else none
termination_by n _ => sizeOf n

/-- The child loop of `findNodeAtPosition`: try every child in order and
return the first recursive hit. -/
def findFirstChildAtOffset : List TSNode → Nat → Option TSNode
  | [], _ => none
  | c :: cs, off =>
    match findNodeAtOffset c off with
    | some r => some r
    | none => findFirstChildAtOffset cs off
termination_by cs _ => sizeOf cs

end

/-- The spec's description of the same search: starting from a node,
repeatedly step to the first child whose byte span contains the offset;
stop at a node none of whose children contains it. -/
def descendSpec : TSNode → Nat → TSNode
  | TSNode.node s e nm cs, off =>
    match h : cs.find? (fun c => containsOffset c off) with
    | some c => descendSpec c off
    | none => TSNode.node s e nm cs
termination_by n _ => sizeOf n
decreasing_by
  have hmem := List.mem_of_find?_eq_some h
  have := List.sizeOf_lt_of_mem hmem
  simp_wf
  omega

/-- Structural induction for `TSNode` along the child relation. -/
def TSNode.strongInduction {P : TSNode → Prop}
    (h : ∀ s e nm cs, (∀ c, c ∈ cs → P c) → P (TSNode.node s e nm cs)) :
    ∀ n, P n
  | TSNode.node s e nm cs => h s e nm cs (fun c hc => TSNode.strongInduction h c)
termination_by n => sizeOf n
decreasing_by
  have := List.sizeOf_lt_of_mem hc
  simp_wf
  omega

theorem findFirstChildAtOffset_eq (cs : List TSNode) (off : Nat)
    (ih : ∀ c ∈ cs, findNodeAtOffset c off
      = if containsOffset c off then some (descendSpec c off) else none) :
    findFirstChildAtOffset cs off
      = (cs.find? (fun c => containsOffset c off)).map (fun c => descendSpec c off) := by
  induction cs with
  | nil => simp [findFirstChildAtOffset]
  | cons c cs ihl =>
    rw [findFirstChildAtOffset, ih c (List.mem_cons_self c cs)]
    by_cases hc : containsOffset c off = true
    · rw [if_pos hc, List.find?_cons_of_pos (p := fun d => containsOffset d off) cs hc]
      rfl
    · rw [if_neg hc, ihl (fun d hd => ih d (List.mem_cons_of_mem c hd)),
        List.find?_cons_of_neg (p := fun d => containsOffset d off) cs hc]

/-- The manual search agrees with the spec's descend-first-containing-child
description: it succeeds exactly when the node's span contains the
offset, and then returns the node reached by repeatedly entering the
first containing child. -/
theorem findNodeAtOffset_eq_descendSpec (n : TSNode) (off : Nat) :
    findNodeAtOffset n off
      = if containsOffset n off then some (descendSpec n off) else none := by
  induction n using TSNode.strongInduction with
  | _ s e nm cs ih =>
    rw [findNodeAtOffset, findFirstChildAtOffset_eq cs off (fun c hc => ih c hc)]
    by_cases hcont : s ≤ off ∧ off ≤ e
    · have hb : containsOffset (TSNode.node s e nm cs) off = true := by
        simp [containsOffset, TSNode.startByte, TSNode.endByte, hcont.1, hcont.2]
      rw [if_pos hcont, if_pos hb]
      rw [descendSpec]
      cases hf : cs.find? (fun c => containsOffset c off) with
      | some c => simp [hf]
      | none => simp [hf]
    · have hb : containsOffset (TSNode.node s e nm cs) off = false := by
        simp only [containsOffset, TSNode.startByte, TSNode.endByte]
        rcases Decidable.not_and_iff_or_not.mp hcont with h | h <;> simp [h]
      rw [if_neg hcont, hb]
      simp

/-- The text and parsed tree of one open document, as read by
`GetNodeAtPosition` (the lifecycle model above tracks trees only by id;
this view carries the tree's shape). -/
structure ParsedDocument where
  text : String
  tree : Option TSNode

/-- `DocumentManager.GetNodeAtPosition` (document.go lines 120-145) for
one uri: `doc?` is the map lookup result (`none` when the document is
not open).  `namedDescendant` stands for the external
`RootNode().NamedDescendantForPointRange(pos, pos)` call; it may return
a nil node, hence `Option`.  The outer `Option` is the `ok` flag of the
Go return: `none` exactly when the document is missing or has no tree. -/
def getNodeAtPosition (doc? : Option ParsedDocument) (line character : Nat)
    (namedDescendant : TSNode → Nat → Nat → Option TSNode) :
    Option (Option TSNode) :=
  match doc? with
  | none => none
  | some doc =>
    match doc.tree with
    | none => none
    | some tree =>
      match findNodeAtOffset tree (posToOffset doc.text line character) with
      | some n => some (some n)
      | none => some (namedDescendant tree line character)

/-- C3: for an open document with a parsed tree, `GetNodeAtPosition`
converts the position to a byte offset using the document's current
text; when the root's span contains that offset it returns the node
reached by repeatedly entering the first child (named or unnamed) whose
span contains the offset, and otherwise it falls back to the tree's
named-descendant search.  A missing document or a document without a
tree yields no result. -/
theorem getNodeAtPosition_spec (text : String) (t : TSNode) (line character : Nat)
    (namedDescendant : TSNode → Nat → Nat → Option TSNode) :
    (getNodeAtPosition (some ⟨text, some t⟩) line character namedDescendant
        = some (if containsOffset t (posToOffset text line character) then
              some (descendSpec t (posToOffset text line character))
            else namedDescendant t line character))
      ∧ getNodeAtPosition none line character namedDescendant = none
      ∧ getNodeAtPosition (some ⟨text, none⟩) line character namedDescendant = none := by
  refine ⟨?_, rfl, rfl⟩
  show (match findNodeAtOffset t (posToOffset text line character) with
      | some n => some (some n)
      | none => some (namedDescendant t line character)) = _
  rw [findNodeAtOffset_eq_descendSpec]
  by_cases hc : containsOffset t (posToOffset text line character) = true
  · rw [if_pos hc, if_pos hc]
  · rw [if_neg hc, if_neg hc]

/-- The notifications and scanner calls made during one `Server.indexAll`
run, in order. -/
inductive IndexEvent where
  | notifyIndexingStarted
  | clearHashes
  | scanIndexAll
  | notifyIndexingCompleted (elapsedNanos : Nat)
deriving DecidableEq, Repr

/-- Whether an event is the `shopware/indexingCompleted` notification. -/
def IndexEvent.isCompleted : IndexEvent → Bool
  | .notifyIndexingCompleted _ => true
  | _ => false

/-- The environment one `indexAll` run executes in: whether `s.conn` is
non-nil, whether each fallible step succeeds, and the monotonic clock
readings (nanoseconds) taken at the start and at the elapsed-time
computation. -/
structure ScanEnv where
  connPresent : Bool
  notifyStartedOk : Bool
  clearOk : Bool
  scanOk : Bool
  notifyCompletedOk : Bool
  startNanos : Nat
  endNanos : Nat
deriving DecidableEq, Repr

/-- The `timeInSeconds` value sent in `shopware/indexingCompleted`:
`time.Duration.Seconds()` of the elapsed nanoseconds. -/
def timeInSeconds (elapsedNanos : Nat) : ℚ :=
  (elapsedNanos : ℚ) / 1000000000

/-- `Server.indexAll` (server.go lines 668-704): notify
`shopware/indexingStarted` when a connection exists (returning its error
if any), clear the hash store when `forceReindex` is set (returning on
error), run the full scan (returning on error), then notify
`shopware/indexingCompleted` with the elapsed seconds.  Returns the
emitted event trace and whether the run returned nil. -/
def indexAll (env : ScanEnv) (forceReindex : Bool) : List IndexEvent × Bool :=
  let ev0 : List IndexEvent := if env.connPresent then [IndexEvent.notifyIndexingStarted] else []
  if env.connPresent && !env.notifyStartedOk then (ev0, false)
  else
    let ev1 := ev0 ++ (if forceReindex then [IndexEvent.clearHashes] else [])
    if forceReindex && !env.clearOk then (ev1, false)
    else
      let ev2 := ev1 ++ [IndexEvent.scanIndexAll]
      if !env.scanOk then (ev2, false)
      else
        let elapsed := env.endNanos - env.startNanos
        let ev3 := ev2 ++ (if env.connPresent then [IndexEvent.notifyIndexingCompleted elapsed] else [])
        if env.connPresent && !env.notifyCompletedOk then (ev3, false)
        else (ev3, true)

/-- C6 counterexample: a run with a live connection whose scan fails
emits `indexingStarted` and runs the scan, but returns the error before
any `indexingCompleted` notification is sent, so the run is not followed
by the completion notification the claim promises. -/
theorem indexAll_scanFailure_counterexample :
    (indexAll ⟨true, true, true, false, true, 0, 7⟩ false).1
        = [IndexEvent.notifyIndexingStarted, IndexEvent.scanIndexAll]
      ∧ ((indexAll ⟨true, true, true, false, true, 0, 7⟩ false).1.all
          (fun e => !e.isCompleted)) = true
      ∧ (indexAll ⟨true, true, true, false, true, 0, 7⟩ false).2 = false := by
  decide

/-- C6 (amended): with a live connection and reliable notification
sends, every `indexAll` run emits `shopware/indexingStarted` first;
when hash-clearing (if forced) and the scan succeed — in particular on
an empty workspace, where the scan trivially succeeds — the run ends
with `shopware/indexingCompleted` carrying `timeInSeconds ≥ 0`; when
clearing or the scan fails the run returns the error without emitting
`indexingCompleted`. -/
theorem indexAll_notification_spec (env : ScanEnv) (forceReindex : Bool)
    (hconn : env.connPresent = true) (hns : env.notifyStartedOk = true)
    (hnc : env.notifyCompletedOk = true) :
    ((indexAll env forceReindex).1.head? = some IndexEvent.notifyIndexingStarted)
      ∧ (if (forceReindex = true → env.clearOk = true) ∧ env.scanOk = true then
            (indexAll env forceReindex).1.getLast? =
                some (IndexEvent.notifyIndexingCompleted (env.endNanos - env.startNanos))
              ∧ (indexAll env forceReindex).2 = true
              ∧ 0 ≤ timeInSeconds (env.endNanos - env.startNanos)
          else
            ((indexAll env forceReindex).1.all (fun e => !e.isCompleted)) = true
              ∧ (indexAll env forceReindex).2 = false) := by
  have hq : 0 ≤ timeInSeconds (env.endNanos - env.startNanos) := by
    unfold timeInSeconds
    positivity
  unfold indexAll
  rw [hconn, hns, hnc]
  cases hclear : env.clearOk with
  | true =>
    cases hscan : env.scanOk with
    | true =>
      cases forceReindex <;>
        simp [List.getLast?_append, hq]
    | false =>
      cases forceReindex <;>
        simp [IndexEvent.isCompleted]
  | false =>
    cases hscan : env.scanOk with
    | true =>
      cases forceReindex <;>
        simp [List.getLast?_append, hq, IndexEvent.isCompleted]
    | false =>
      cases forceReindex <;>
        simp [IndexEvent.isCompleted]

/-- Witness for C6 at a concrete input: connection present, notifications
reliable, scan succeeds, not forced. -/
theorem indexAll_notification_spec_witness :
    ((indexAll ⟨true, true, true, true, true, 2, 9⟩ false).1.head?
        = some IndexEvent.notifyIndexingStarted)
      ∧ (if ((false = true → (ScanEnv.mk true true true true true 2 9).clearOk = true)
            ∧ (ScanEnv.mk true true true true true 2 9).scanOk = true) then
            (indexAll ⟨true, true, true, true, true, 2, 9⟩ false).1.getLast? =
                some (IndexEvent.notifyIndexingCompleted (9 - 2))
              ∧ (indexAll ⟨true, true, true, true, true, 2, 9⟩ false).2 = true
              ∧ 0 ≤ timeInSeconds (9 - 2)
          else
            ((indexAll ⟨true, true, true, true, true, 2, 9⟩ false).1.all
                (fun e => !e.isCompleted)) = true
              ∧ (indexAll ⟨true, true, true, true, true, 2, 9⟩ false).2 = false) :=
  indexAll_notification_spec ⟨true, true, true, true, true, 2, 9⟩ false rfl rfl rfl

/-- One registered indexer, reduced to what `CloseAll` observes: its id
and whether its `Close()` returns an error. -/
structure IndexerM where
  id : String
  closeFails : Bool
deriving DecidableEq, Repr

/-- The resource-release calls made during `Server.CloseAll`, in order. -/
inductive CloseEvent where
  | docManagerClosed
  | indexerClosed (id : String)
deriving DecidableEq, Repr

/-- The indexer loop of `CloseAll` (server.go lines 717-721): call
`Close()` on each indexer in iteration order, returning the first error
immediately — indexers after a failing one are not closed. -/
def closeIndexers : List IndexerM → List CloseEvent × Option String
  | [] => ([], none)
  | i :: is =>
    if i.closeFails then ([CloseEvent.indexerClosed i.id], some i.id)
    else
      let r := closeIndexers is
      (CloseEvent.indexerClosed i.id :: r.1, r.2)

/-- `Server.CloseAll` (server.go lines 706-722): close the document
manager first (when present), then run the indexer loop. -/
def closeAll (docManagerPresent : Bool) (indexers : List IndexerM) :
    List CloseEvent × Option String :=
  let head := if docManagerPresent then [CloseEvent.docManagerClosed] else []
  let r := closeIndexers indexers
  (head ++ r.1, r.2)

/-- The indexers that actually receive a `Close()` call: every indexer up
to and including the first one whose `Close` fails. -/
def closedUpToFirstFailure : List IndexerM → List IndexerM
  | [] => []
  | i :: is => if i.closeFails then [i] else i :: closedUpToFirstFailure is

/-- The error `CloseAll` returns: the id of the first indexer whose
`Close` fails, if any. -/
def firstCloseFailure : List IndexerM → Option String
  | [] => none
  | i :: is => if i.closeFails then some i.id else firstCloseFailure is

/-- C7 counterexample: with indexer `a` failing to close and indexer `b`
after it in iteration order, `CloseAll` returns `a`'s error before ever
invoking `b.Close()`, so not every indexer's `Close` is invoked. -/
theorem closeAll_skips_after_error_counterexample :
    (closeAll true [⟨"a", true⟩, ⟨"b", false⟩]).1
        = [CloseEvent.docManagerClosed, CloseEvent.indexerClosed "a"]
      ∧ CloseEvent.indexerClosed "b" ∉ (closeAll true [⟨"a", true⟩, ⟨"b", false⟩]).1 := by
  decide

/-- The LSP methods routed by `Server.handle` (server.go lines 755-1033);
`unknownMethod` is any other method string. -/
inductive LspMethod where
  | exit
  | initializeReq
  | initializedNotif
  | didOpen
  | didChange
  | didClose
  | completionReq
  | definitionReq
  | referencesReq
  | codeLensReq
  | hoverReq
  | diagnosticReq
  | resolveCodeLensReq
  | codeActionReq
  | forceReindexReq
  | shutdown
  | didCreateFiles
  | didRenameFiles
  | didDeleteFiles
  | didChangeWatchedFiles
  | unknownMethod (name : String)
deriving DecidableEq, Repr

/-- One incoming JSON-RPC message: its method, whether its parameter
payload unmarshals into the expected shape, and whether it is a
notification (no request id). -/
structure LspRequest where
  method : LspMethod
  paramsOk : Bool
  isNotification : Bool
deriving DecidableEq, Repr

/-- How `handle` answers: a normal (possibly empty) result, a JSON-RPC
error caused by a parameter that failed to unmarshal (this covers the
`CodeParseError` returned for `initialize` and the raw unmarshal errors
of the other cases), or the `CodeMethodNotFound` error of the default
case. -/
inductive HandleResult where
  | ok
  | errUnmarshal
  | errMethodNotFound
deriving DecidableEq, Repr

/-- The outcome of `handle` on one request: the JSON-RPC answer plus
whether the handler closed the connection (`conn.Close()` happens only
in the `exit` case). -/
structure HandleOutcome where
  result : HandleResult
  closesConn : Bool
deriving DecidableEq, Repr

/-- Modelled from the spec: the body of `Server.hover` is not in the
repository snapshot (only its `return s.hover(ctx, &params)` call site
is).  Per the propagation policy — "handlers return normal empty
results (not errors) when the request cannot be fulfilled but is
well-formed" — it never contributes a JSON-RPC error. -/
def hoverHandlerResult : HandleResult := HandleResult.ok

/-- Modelled from the spec: the body of `Server.resolveCodeLens` is not
in the repository snapshot (only its call site is).  Per the propagation
policy it never contributes a JSON-RPC error. -/
def resolveCodeLensHandlerResult : HandleResult := HandleResult.ok

/-- Whether the `handle` case for the method starts by unmarshalling
`req.Params` (`exit`, `initialized`, `shopware/forceReindex` and
`shutdown` do not decode parameters). -/
def methodDecodesParams : LspMethod → Bool
  | .exit => false
  | .initializedNotif => false
  | .forceReindexReq => false
  | .shutdown => false
  | .unknownMethod _ => false
  | _ => true

/-- `Server.handle` (server.go lines 755-1033), with no commands in
`commandMap` (command handlers are provider-supplied and outside the
dispatch core).  Each built-in case decodes its parameters (answering
with an error when that fails) and then returns its handler's value as
a normal result; the default case answers nothing for notifications and
`CodeMethodNotFound` for requests. -/
def handleRequest (req : LspRequest) : HandleOutcome :=
  match req.method with
  | .exit => ⟨HandleResult.ok, true⟩
  | .initializeReq => if req.paramsOk then ⟨HandleResult.ok, false⟩ else ⟨HandleResult.errUnmarshal, false⟩
  | .initializedNotif => ⟨HandleResult.ok, false⟩
  | .didOpen => if req.paramsOk then ⟨HandleResult.ok, false⟩ else ⟨HandleResult.errUnmarshal, false⟩
  | .didChange => if req.paramsOk then ⟨HandleResult.ok, false⟩ else ⟨HandleResult.errUnmarshal, false⟩
  | .didClose => if req.paramsOk then ⟨HandleResult.ok, false⟩ else ⟨HandleResult.errUnmarshal, false⟩
  | .completionReq => if req.paramsOk then ⟨HandleResult.ok, false⟩ else ⟨HandleResult.errUnmarshal, false⟩
  | .definitionReq => if req.paramsOk then ⟨HandleResult.ok, false⟩ else ⟨HandleResult.errUnmarshal, false⟩
  | .referencesReq => if req.paramsOk then ⟨HandleResult.ok, false⟩ else ⟨HandleResult.errUnmarshal, false⟩
  | .codeLensReq => if req.paramsOk then ⟨HandleResult.ok, false⟩ else ⟨HandleResult.errUnmarshal, false⟩
  | .hoverReq => if req.paramsOk then ⟨hoverHandlerResult, false⟩ else ⟨HandleResult.errUnmarshal, false⟩
  | .diagnosticReq => if req.paramsOk then ⟨HandleResult.ok, false⟩ else ⟨HandleResult.errUnmarshal, false⟩
  | .resolveCodeLensReq => if req.paramsOk then ⟨resolveCodeLensHandlerResult, false⟩ else ⟨HandleResult.errUnmarshal, false⟩
  | .codeActionReq => if req.paramsOk then ⟨HandleResult.ok, false⟩ else ⟨HandleResult.errUnmarshal, false⟩
  | .forceReindexReq => ⟨HandleResult.ok, false⟩
  | .shutdown => ⟨HandleResult.ok, false⟩
  | .didCreateFiles => if req.paramsOk then ⟨HandleResult.ok, false⟩ else ⟨HandleResult.errUnmarshal, false⟩
  | .didRenameFiles => if req.paramsOk then ⟨HandleResult.ok, false⟩ else ⟨HandleResult.errUnmarshal, false⟩
  | .didDeleteFiles => if req.paramsOk then ⟨HandleResult.ok, false⟩ else ⟨HandleResult.errUnmarshal, false⟩
  | .didChangeWatchedFiles => if req.paramsOk then ⟨HandleResult.ok, false⟩ else ⟨HandleResult.errUnmarshal, false⟩
  | .unknownMethod _ =>
    if req.isNotification then ⟨HandleResult.ok, false⟩ else ⟨HandleResult.errMethodNotFound, false⟩

theorem closeIndexers_eq (indexers : List IndexerM) :
    closeIndexers indexers
      = ((closedUpToFirstFailure indexers).map (fun j => CloseEvent.indexerClosed j.id),
          firstCloseFailure indexers) := by
  induction indexers with
  | nil => rfl
  | cons i is ih =>
    by_cases hf : i.closeFails = true
    · simp [closeIndexers, closedUpToFirstFailure, firstCloseFailure, hf]
    · simp [closeIndexers, closedUpToFirstFailure, firstCloseFailure, hf, ih]

/-- C7 (amended): on shutdown the document manager is closed first, then
the indexers receive `Close()` in iteration order only up to and
including the first indexer whose `Close` errors — that error is
returned and the remaining indexers are not closed (when none fails,
every indexer is closed and nil is returned); the shutdown handler
leaves the connection open, and only the `exit` notification closes
it. -/
theorem closeAll_spec (docManagerPresent : Bool) (indexers : List IndexerM) :
    closeAll docManagerPresent indexers
        = ((if docManagerPresent then [CloseEvent.docManagerClosed] else [])
              ++ (closedUpToFirstFailure indexers).map (fun j => CloseEvent.indexerClosed j.id),
            firstCloseFailure indexers)
      ∧ (handleRequest ⟨LspMethod.shutdown, true, false⟩).closesConn = false
      ∧ (handleRequest ⟨LspMethod.exit, true, true⟩).closesConn = true := by
  refine ⟨?_, rfl, rfl⟩
  simp [closeAll, closeIndexers_eq]

/-- `Server.diagnostic` (server.go lines 1259-1295) reduced to its
result items: an unopened document (no text) or a document without a
root node yields an empty item list; otherwise the providers' results
are concatenated in order, a provider error being logged and skipped
(`continue`), never propagated.  `providerResults` carries, per
registered provider in order, `none` for an error and `some items`
otherwise.  The return type itself records that this handler cannot
produce a JSON-RPC error. -/
def diagnostic (content? : Option String) (rootNode? : Option TSNode)
    (providerResults : List (Option (List String))) : List String :=
  match content? with
  | none => []
  | some _ =>
    match rootNode? with
    | none => []
    | some _ => (providerResults.filterMap id).flatten

/-- C8: `handle` answers with a JSON-RPC error exactly for a parameter
payload that fails to unmarshal on a parameter-decoding method, and for
an unknown method that carries a request id; every other request gets a
normal result.  In particular a `textDocument/diagnostic` request on a
document that is not open (or whose tree has no root) is answered with
a normal empty item list, and provider errors are skipped rather than
propagated. -/
theorem handle_error_policy (req : LspRequest) :
    ((handleRequest req).result ≠ HandleResult.ok ↔
        ((methodDecodesParams req.method = true ∧ req.paramsOk = false)
          ∨ ((∃ nm, req.method = LspMethod.unknownMethod nm) ∧ req.isNotification = false)))
      ∧ (∀ rootNode? providerResults,
          diagnostic none rootNode? providerResults = [])
      ∧ (∀ content providerResults,
          diagnostic (some content) none providerResults = [])
      ∧ (∀ content t items providerResults,
          diagnostic (some content) (some t) (none :: some items :: providerResults)
            = diagnostic (some content) (some t) (some items :: providerResults)) := by
  refine ⟨?_, fun _ _ => rfl, fun _ _ => rfl, fun _ _ _ _ => rfl⟩
  cases req with
  | mk method paramsOk isNotification =>
    cases method <;>
      cases paramsOk <;>
        cases isNotification <;>
          simp [handleRequest, methodDecodesParams, hoverHandlerResult,
            resolveCodeLensHandlerResult]

/-- `protocol.CompletionList`: the envelope `completion` wraps its items
in. -/
structure CompletionList (β : Type) where
  isIncomplete : Bool
  items : List β

/-- `Server.completion` (server.go lines 1186-1206 of the current
revision; the provider loop): append each registered provider's
`GetCompletions` to the accumulated items, in registration order, and
wrap the total in a `CompletionList` with `IsIncomplete: false`.
`providers` is the registration-ordered `s.completionProviders` list
(each `Register...Provider` appends). -/
def completion {α β : Type} (providers : List (α → List β)) (params : α) : CompletionList β :=
  { isIncomplete := false,
    items := providers.foldl (fun acc p => acc ++ p params) [] }

/-- `Server.codeAction` (server.go lines 1297-1313): same fan-out,
returning the bare concatenation. -/
def codeAction {α β : Type} (providers : List (α → List β)) (params : α) : List β :=
  providers.foldl (fun acc p => acc ++ p params) []

theorem foldl_append_providers {α β : Type} (providers : List (α → List β)) (params : α)
    (acc : List β) :
    providers.foldl (fun acc p => acc ++ p params) acc
      = acc ++ (providers.map (fun p => p params)).flatten := by
  induction providers generalizing acc with
  | nil => simp
  | cons p ps ih => simp [List.foldl_cons, ih]

/-- C9: the completion dispatcher invokes the providers in registration
order and returns exactly the order-preserving concatenation of their
results, wrapped in a `CompletionList` with `isIncomplete = false`; the
code-action dispatcher returns the same concatenation bare. -/
theorem completion_concatenation_spec {α β : Type} (providers : List (α → List β))
    (params : α) :
    completion providers params
        = { isIncomplete := false, items := (providers.map (fun p => p params)).flatten }
      ∧ codeAction providers params = (providers.map (fun p => p params)).flatten := by
  constructor
  · unfold completion
    rw [foldl_append_providers]
    simp
  · unfold codeAction
    rw [foldl_append_providers]
    simp

/-- The `textDocument/didChange` case of `handle` (server.go lines
816-835): decode, then — only when `contentChanges` is non-empty —
forward the first change's text to `UpdateDocument` and spawn a
diagnostics publication.  Returns the document manager afterwards and
whether diagnostics publication was triggered. -/
def handleDidChange (m : DocumentManager) (uri : String) (version : Int)
    (contentChanges : List String) : DocumentManager × Bool :=
  match contentChanges with
  | [] => (m, false)
  | t :: _ => (updateDocument m uri t version, true)

/-- C10: a `didChange` whose `contentChanges` list is empty is a
complete no-op — the document manager is returned unchanged (so every
uri's text, version and tree are unchanged) and no diagnostics
publication is triggered. -/
theorem didChange_empty_noop (m : DocumentManager) (uri : String) (version : Int) :
    handleDidChange m uri version [] = (m, false)
      ∧ ∀ u, getDocumentText (handleDidChange m uri version []).1 u = getDocumentText m u :=
  ⟨rfl, fun _ => rfl⟩

end ShopwareLsp
